import Mathlib

/-!
Shallow embedding of `src/main.py` (the pandas Sales Record Cleaner).

The program is a linear pipeline over an in-memory table:
`pd.read_csv` (header=None, names=[id, product, price, country],
skipinitialspace=True) → strip quote characters and whitespace from
`product` → strip dollar signs and whitespace from `price` and convert
with `astype(float)` → `dropna` → `drop_duplicates(subset=[product, price])`
→ derive `price_inr = (price * 83).round(2)` → rename and reorder columns
→ serialize as a JSON array of records.

Modelling decisions, faithful to the pandas semantics the script relies on:
* the input is the sequence of tokenized rows, each row the list of its raw
  field strings (the CSV quoting layer itself is outside the model);
  `skipinitialspace` drops spaces at the start of a field, and a field that
  is then empty is the missing value NA;
* a short row is padded with NA at the end; a row with more fields than the
  table width (the first row's field count, at least the 4 supplied names)
  raises `ParserError`; when the first row is wider than 4 fields the extra
  leading fields become the index and the last 4 fields are the named ones;
  an input with no rows loads as an empty frame with the 4 named columns;
* per-column dtype inference: a nonempty column whose present cells all
  parse as numbers loads as a numeric column (`Val.num`), so do columns
  that are entirely NA (float64); otherwise the column is an object column
  whose cells are strings (`Val.str`);
* the `.str` accessor on a column that did not load as an object column
  raises `AttributeError`; `astype(float)` on an object column raises
  `ValueError` at the first cell that does not parse as a float (it has no
  coerce-to-missing fallback); NA cells pass through both untouched;
* numbers are modelled as exact rationals, kept as gcd-reduced fractions
  with a positive denominator so that value equality is structural
  equality; the float-literal grammar is an optional sign, digits with an
  optional fractional part, and an optional exponent (non-finite literals
  such as `inf`/`nan` and digit underscores are out of scope);
* `(· * 83).round(2)` is rounding half to even at 2 decimal places, the
  convention of `numpy`/Python `round`;
* a run that raises is `Except.error`; a successful run yields the final
  record list, whose JSON serialization is one object per record (the
  empty list serializes as the empty JSON array `[]`).
-/

namespace Sales

/-- The characters Python `str.strip` removes by default (ASCII fragment). -/
def isSpace (c : Char) : Bool :=
  (c == ' ') || (c == '\t') || (c == '\n') || (c == '\r') || (c == '\x0b') || (c == '\x0c')

/-- The double-quote character the script strips from `product`. -/
def quoteChar : Char := Char.ofNat 34

/-- Strip `isSpace` characters from both ends of a character list. -/
def stripList (l : List Char) : List Char :=
  ((l.dropWhile isSpace).reverse.dropWhile isSpace).reverse

/-- Python `str.strip()`. -/
def pyStrip (s : String) : String := String.mk (stripList s.data)

/-- Python `str.replace(c, "", regex=False)`: drop every occurrence of `c`. -/
def removeAll (c : Char) (s : String) : String :=
  String.mk (s.data.filter (fun d => !(d == c)))

/-- An exact rational number: a gcd-reduced fraction with positive
denominator.  Every value built by the smart constructors below is
canonical, so structural equality coincides with value equality. -/
structure Q where
  n : ℤ
  d : ℤ
deriving DecidableEq, Repr

/-- Canonical fraction `a / b` for `b ≠ 0`: move the sign to the
numerator and divide out the gcd. -/
def qmk (a b : ℤ) : Q :=
  let a2 : ℤ := if b < 0 then -a else a
  let b2 : ℤ := if b < 0 then -b else b
  let g : ℤ := (Int.gcd a2 b2 : ℤ)
  if g = 0 then ⟨0, 1⟩ else ⟨a2 / g, b2 / g⟩

/-- The integer `a` as a rational. -/
def qofInt (a : ℤ) : Q := ⟨a, 1⟩

def qadd (x y : Q) : Q := qmk (x.n * y.d + y.n * x.d) (x.d * y.d)

def qmul (x y : Q) : Q := qmk (x.n * y.n) (x.d * y.d)

def qneg (x : Q) : Q := ⟨-x.n, x.d⟩

def qdiv (x y : Q) : Q := qmk (x.n * y.d) (x.d * y.n)

def qpowNat (x : Q) : ℕ → Q
  | 0 => ⟨1, 1⟩
  | k + 1 => qmul x (qpowNat x k)

/-- Ten to the power `e`, for a possibly negative exponent. -/
def qpow10 (e : ℤ) : Q :=
  match e with
  | Int.ofNat k => qpowNat (qofInt 10) k
  | Int.negSucc k => qdiv ⟨1, 1⟩ (qpowNat (qofInt 10) (k + 1))

/-- Floor of a canonical rational (the denominator is positive). -/
def qfloor (x : Q) : ℤ := Int.fdiv x.n x.d

/-- Value of a digit string read in base 10. -/
def natOfDigits (l : List Char) : ℕ :=
  l.foldl (fun n c => 10 * n + (c.toNat - 48)) 0

/-- Exponent tail of a float literal: sign and at least one digit. -/
def parseExpTail (r : List Char) : Option ℤ :=
  match r with
  | '-' :: r2 => if r2 ≠ [] ∧ r2.all Char.isDigit then some (-(natOfDigits r2 : ℤ)) else none
  | '+' :: r2 => if r2 ≠ [] ∧ r2.all Char.isDigit then some ((natOfDigits r2 : ℤ)) else none
  | r2 => if r2 ≠ [] ∧ r2.all Char.isDigit then some ((natOfDigits r2 : ℤ)) else none

/-- Exponent part of a float literal: empty, or `e`/`E` then a signed integer. -/
def parseExp (l : List Char) : Option ℤ :=
  match l with
  | [] => some 0
  | 'e' :: r => parseExpTail r
  | 'E' :: r => parseExpTail r
  | _ => none

/-- Unsigned float literal: digits, optional `.` and fraction digits
(at least one digit overall), optional exponent. -/
def parseUnsigned (l : List Char) : Option Q :=
  let intd := l.takeWhile Char.isDigit
  let rest := l.dropWhile Char.isDigit
  match rest with
  | '.' :: r2 =>
    let fracd := r2.takeWhile Char.isDigit
    let rest2 := r2.dropWhile Char.isDigit
    if intd = [] ∧ fracd = [] then none
    else
      match parseExp rest2 with
      | some e =>
        some (qmul
          (qadd (qofInt (natOfDigits intd))
            (qdiv (qofInt (natOfDigits fracd)) (qpowNat (qofInt 10) fracd.length)))
          (qpow10 e))
      | none => none
  | _ =>
    if intd = [] then none
    else
      match parseExp rest with
      | some e => some (qmul (qofInt (natOfDigits intd)) (qpow10 e))
      | none => none

/-- Finite float literal as parsed by the pandas tokenizer / Python `float`. -/
def parseFloat? (s : String) : Option Q :=
  match s.data with
  | '-' :: r => (parseUnsigned r).map qneg
  | '+' :: r => parseUnsigned r
  | r => parseUnsigned r

/-- A loaded cell: missing (NaN), a number (numeric column), or text
(object column). -/
inductive Val where
  | na : Val
  | num (q : Q) : Val
  | str (s : String) : Val
deriving DecidableEq, Repr

/-- One loaded record with the four named columns of the script. -/
structure Row where
  id : Val
  product : Val
  price : Val
  country : Val
deriving DecidableEq, Repr

/-- The exceptions the script can raise while transforming the table. -/
inductive Err where
  | parseError (expected seen : ℕ) : Err
  | attributeError (col : String) : Err
  | valueError (cell : String) : Err
deriving DecidableEq, Repr

/-- One output record in the fixed serialization order of the script. -/
structure OutRec where
  id : Val
  product : Val
  price_usd : Val
  price_inr : Val
  country : Val
deriving DecidableEq, Repr

/-- One raw field: `skipinitialspace` drops leading spaces, and an empty
field is the missing value. -/
def cleanField (s : String) : Option String :=
  match s.data.dropWhile (fun c => c == ' ') with
  | [] => none
  | l => some (String.mk l)

/-- Pad a tokenized row at the end with missing values up to the table width. -/
def padTo (w : ℕ) (l : List (Option String)) : List (Option String) :=
  l ++ List.replicate (w - l.length) none

/-- Table width: the first row's field count, but at least the 4 names. -/
def expectedWidth (rows : List (List String)) : ℕ :=
  match rows with
  | [] => 4
  | r :: _ => max r.length 4

/-- A nonempty raw column whose present cells all parse as numbers is
loaded with a numeric dtype (a column that is entirely NA is float64). -/
def numericColB (col : List (Option String)) : Bool :=
  !col.isEmpty && col.all (fun c =>
    match c with
    | none => true
    | some s => (parseFloat? s).isSome)

/-- Dtype inference for one raw column. -/
def inferCol (col : List (Option String)) : List Val :=
  if numericColB col then
    col.map (fun c =>
      match c with
      | none => Val.na
      | some s =>
        match parseFloat? s with
        | some q => Val.num q
        | none => Val.na)
  else
    col.map (fun c =>
      match c with
      | none => Val.na
      | some s => Val.str s)

/-- Assemble the frame from the width-4 raw rows, inferring each column's
dtype independently. -/
def mkRows (raw : List (List (Option String))) : List Row :=
  let c0 := inferCol (raw.map (fun r => r.getD 0 none))
  let c1 := inferCol (raw.map (fun r => r.getD 1 none))
  let c2 := inferCol (raw.map (fun r => r.getD 2 none))
  let c3 := inferCol (raw.map (fun r => r.getD 3 none))
  (List.range raw.length).map (fun i =>
    ⟨c0.getD i Val.na, c1.getD i Val.na, c2.getD i Val.na, c3.getD i Val.na⟩)

/-- Lines 11-14 of the script: `pd.read_csv(input_file, header=None,
names=[id, product, price, country], skipinitialspace=True)`.  Raise `ParserError`
when a row is wider than the table width, pad short rows with NA, use
extra leading fields of a wide first row as the index, then infer dtypes. -/
def loadFrame (input : List (List String)) : Except Err (List Row) :=
  match input.find? (fun r => decide (expectedWidth input < r.length)) with
  | some r => Except.error (Err.parseError (expectedWidth input) r.length)
  | none =>
    Except.ok (mkRows (input.map (fun r =>
      (padTo (expectedWidth input) (r.map cleanField)).drop (expectedWidth input - 4))))

/-- Whether a loaded column carries a numeric dtype: it is nonempty and has
no text cell.  The `.str` accessor fails on such a column. -/
def isNumericVals (col : List Val) : Bool :=
  !col.isEmpty && col.all (fun v =>
    match v with
    | Val.str _ => false
    | _ => true)

/-- One record of `df["product"].str.replace(quote, "", regex=False)
.str.strip()`: drop every double quote, then strip surrounding whitespace. -/
def prodRow (r : Row) : Row :=
  match r.product with
  | Val.str s => ⟨r.id, Val.str (pyStrip (removeAll quoteChar s)), r.price, r.country⟩
  | _ => r

/-- Line 20 of the script: normalize the `product` column.  The `.str`
accessor raises `AttributeError` when the column is not an object column. -/
def normalizeProduct (rows : List Row) : Except Err (List Row) :=
  if isNumericVals (rows.map Row.product) then Except.error (Err.attributeError "product")
  else Except.ok (rows.map prodRow)

/-- The `price` cell after `str.replace("$", "", regex=False).str.strip()`. -/
def priceClean (s : String) : String := pyStrip (removeAll '$' s)

/-- One cleaned `price` cell under `astype(float)`: NA passes through, a
text cell must parse as a float or `ValueError` is raised. -/
def priceStep (r : Row) : Except Err Row :=
  match r.price with
  | Val.str s =>
    match parseFloat? (priceClean s) with
    | some q => Except.ok ⟨r.id, r.product, Val.num q, r.country⟩
    | none => Except.error (Err.valueError (priceClean s))
  | _ => Except.ok r

/-- Apply a fallible per-record step across the table, stopping at the
first raised exception. -/
def mapExcept (f : Row → Except Err Row) : List Row → Except Err (List Row)
  | [] => Except.ok []
  | a :: t =>
    match f a with
    | Except.error e => Except.error e
    | Except.ok b =>
      match mapExcept f t with
      | Except.error e => Except.error e
      | Except.ok bs => Except.ok (b :: bs)

/-- Lines 23-24 of the script: normalize and convert the `price` column. -/
def normalizePrice (rows : List Row) : Except Err (List Row) :=
  if isNumericVals (rows.map Row.price) then Except.error (Err.attributeError "price")
  else mapExcept priceStep rows

/-- The shape a record takes when the whole `price` conversion succeeds
(the `Val.na` branch for a failed parse is never reached on success). -/
def priceRowOk (r : Row) : Row :=
  match r.price with
  | Val.str s =>
    match parseFloat? (priceClean s) with
    | some q => ⟨r.id, r.product, Val.num q, r.country⟩
    | none => ⟨r.id, r.product, Val.na, r.country⟩
  | _ => r

/-- Both normalizer stages applied to one record, on the success path. -/
def normRow (r : Row) : Row := priceRowOk (prodRow r)

/-- Does the record have a missing value in any of the four columns? -/
def isNa : Val → Bool
  | Val.na => true
  | _ => false

/-- A record `dropna` removes. -/
def hasNa (r : Row) : Bool :=
  isNa r.id || isNa r.product || isNa r.price || isNa r.country

/-- Line 29 of the script: `df.dropna()`. -/
def dropna (l : List Row) : List Row := l.filter (fun r => !hasNa r)

/-- Count of missing values in one column, as printed by `df.isnull().sum()`. -/
def nullCount (col : List Val) : ℕ := (col.filter isNa).length

/-- The deduplication key `subset=["product", "price"]`. -/
def dkey (r : Row) : Val × Val := (r.product, r.price)

/-- Core of `drop_duplicates(subset=["product", "price"])`: keep a record
whose key was not seen before, in order. -/
def dedupAux : List (Val × Val) → List Row → List Row
  | _, [] => []
  | seen, r :: rest =>
    if dkey r ∈ seen then dedupAux seen rest
    else r :: dedupAux (dkey r :: seen) rest

/-- Line 34 of the script: stable first-occurrence deduplication. -/
def dedup (l : List Row) : List Row := dedupAux [] l

/-- Core of `df.duplicated(subset=["product", "price"]).sum()`: count the
records whose key already occurred in an earlier record. -/
def dupAux : List (Val × Val) → List Row → ℕ
  | _, [] => 0
  | seen, r :: rest => (if dkey r ∈ seen then 1 else 0) + dupAux (dkey r :: seen) rest

/-- Line 33 of the script: the reported duplicate count, computed before
removal. -/
def dupCount (l : List Row) : ℕ := dupAux [] l

/-- Line 4 of the script: `USD_TO_INR = 83`. -/
def USD_TO_INR : Q := qofInt 83

/-- Round to the nearest integer, ties to the even integer (the Python /
NumPy round-half convention). -/
def roundHalfEven (q : Q) : ℤ :=
  if qadd q (qneg (qofInt (qfloor q))) = ⟨1, 2⟩ then
    (if qfloor q % 2 = 0 then qfloor q else qfloor q + 1)
  else qfloor (qadd q ⟨1, 2⟩)

/-- Pandas `Series.round(2)`: round half to even at 2 decimal places. -/
def round2 (q : Q) : Q := qdiv (qofInt (roundHalfEven (qmul q (qofInt 100)))) (qofInt 100)

/-- Lines 38-44 of the script: derive `price_inr`, rename `price` to
`price_usd`, and project to the fixed output column order. -/
def toOut (r : Row) : OutRec :=
  ⟨r.id, r.product, r.price,
    (match r.price with
     | Val.num q => Val.num (round2 (qmul q USD_TO_INR))
     | v => v),
    r.country⟩

/-- The pipeline through the Missing-Value Filter: load, normalize both
columns, drop records with missing values. -/
def cleanedRows (input : List (List String)) : Except Err (List Row) :=
  match loadFrame input with
  | Except.error e => Except.error e
  | Except.ok frame =>
    match normalizeProduct frame with
    | Except.error e => Except.error e
    | Except.ok f1 =>
      match normalizePrice f1 with
      | Except.error e => Except.error e
      | Except.ok f2 => Except.ok (dropna f2)

/-- The whole run of `main`: an `Except.error` is a raised exception (the
process exits nonzero); `Except.ok` is the record sequence serialized to
the output file (the process exits 0). -/
def main (input : List (List String)) : Except Err (List OutRec) :=
  match cleanedRows input with
  | Except.error e => Except.error e
  | Except.ok cleaned => Except.ok ((dedup cleaned).map toOut)

end Sales

namespace Sales

theorem prodRow_id (r : Row) : (prodRow r).id = r.id := by
  cases r with
  | mk i p pr c => cases p <;> rfl

theorem prodRow_price (r : Row) : (prodRow r).price = r.price := by
  cases r with
  | mk i p pr c => cases p <;> rfl

theorem prodRow_country (r : Row) : (prodRow r).country = r.country := by
  cases r with
  | mk i p pr c => cases p <;> rfl

theorem priceRowOk_id (r : Row) : (priceRowOk r).id = r.id := by
  cases r with
  | mk i p pr c =>
    cases pr with
    | str s => simp only [priceRowOk]; cases parseFloat? (priceClean s) <;> rfl
    | na => rfl
    | num q => rfl

theorem priceRowOk_product (r : Row) : (priceRowOk r).product = r.product := by
  cases r with
  | mk i p pr c =>
    cases pr with
    | str s => simp only [priceRowOk]; cases parseFloat? (priceClean s) <;> rfl
    | na => rfl
    | num q => rfl

theorem priceRowOk_country (r : Row) : (priceRowOk r).country = r.country := by
  cases r with
  | mk i p pr c =>
    cases pr with
    | str s => simp only [priceRowOk]; cases parseFloat? (priceClean s) <;> rfl
    | na => rfl
    | num q => rfl

theorem normRow_id (r : Row) : (normRow r).id = r.id := by
  unfold normRow; rw [priceRowOk_id, prodRow_id]

theorem normRow_country (r : Row) : (normRow r).country = r.country := by
  unfold normRow; rw [priceRowOk_country, prodRow_country]

theorem normRow_product (r : Row) : (normRow r).product = (prodRow r).product := by
  unfold normRow; rw [priceRowOk_product]

theorem map_price_prodRow (rows : List Row) :
    (rows.map prodRow).map Row.price = rows.map Row.price := by
  induction rows with
  | nil => rfl
  | cons a t ih => simp [prodRow_price, ih]

theorem normalizeProduct_ok {rows l : List Row} (h : normalizeProduct rows = Except.ok l) :
    isNumericVals (rows.map Row.product) = false ∧ l = rows.map prodRow := by
  unfold normalizeProduct at h
  by_cases hn : isNumericVals (rows.map Row.product) = true
  · rw [if_pos hn] at h; exact absurd h (by simp)
  · rw [if_neg hn] at h
    refine ⟨by simpa using hn, ?_⟩
    exact (Except.ok.injEq _ _).mp h.symm

theorem priceStep_ok {r b : Row} (h : priceStep r = Except.ok b) : b = priceRowOk r := by
  cases r with
  | mk i p pr c =>
    cases pr with
    | str s =>
      simp only [priceStep] at h
      cases hp : parseFloat? (priceClean s) with
      | some q => rw [hp] at h; simp only [priceRowOk, hp]; exact ((Except.ok.injEq _ _).mp h).symm
      | none => rw [hp] at h; exact absurd h (by simp)
    | na => simp only [priceStep] at h; simp only [priceRowOk]; exact ((Except.ok.injEq _ _).mp h).symm
    | num q => simp only [priceStep] at h; simp only [priceRowOk]; exact ((Except.ok.injEq _ _).mp h).symm

theorem mapExcept_ok {l l' : List Row} (h : mapExcept priceStep l = Except.ok l') :
    l' = l.map priceRowOk := by
  induction l generalizing l' with
  | nil =>
    simp only [mapExcept] at h
    simpa using ((Except.ok.injEq _ _).mp h).symm
  | cons a t ih =>
    simp only [mapExcept] at h
    cases ha : priceStep a with
    | error e => rw [ha] at h; exact absurd h (by simp)
    | ok b =>
      rw [ha] at h
      cases ht : mapExcept priceStep t with
      | error e => rw [ht] at h; exact absurd h (by simp)
      | ok bs =>
        rw [ht] at h
        have hb := priceStep_ok ha
        have hbs := ih ht
        simp only [List.map]
        rw [← hb, ← hbs]
        exact ((Except.ok.injEq _ _).mp h).symm

theorem normalizePrice_ok {rows l : List Row} (h : normalizePrice rows = Except.ok l) :
    isNumericVals (rows.map Row.price) = false ∧ l = rows.map priceRowOk := by
  unfold normalizePrice at h
  by_cases hn : isNumericVals (rows.map Row.price) = true
  · rw [if_pos hn] at h; exact absurd h (by simp)
  · rw [if_neg hn] at h
    exact ⟨by simpa using hn, mapExcept_ok h⟩

theorem cleaned_ok {input : List (List String)} {L : List Row}
    (h : cleanedRows input = Except.ok L) :
    ∃ frame, loadFrame input = Except.ok frame ∧
      isNumericVals (frame.map Row.product) = false ∧
      isNumericVals (frame.map Row.price) = false ∧
      L = dropna (frame.map normRow) := by
  unfold cleanedRows at h
  cases hl : loadFrame input with
  | error e => rw [hl] at h; exact absurd h (by simp)
  | ok frame =>
    rw [hl] at h
    dsimp only at h
    cases hp : normalizeProduct frame with
    | error e => rw [hp] at h; exact absurd h (by simp)
    | ok f1 =>
      rw [hp] at h
      dsimp only at h
      cases hq : normalizePrice f1 with
      | error e => rw [hq] at h; exact absurd h (by simp)
      | ok f2 =>
        rw [hq] at h
        dsimp only at h
        obtain ⟨hnum1, hf1⟩ := normalizeProduct_ok hp
        obtain ⟨hnum2, hf2⟩ := normalizePrice_ok hq
        refine ⟨frame, rfl, hnum1, ?_, ?_⟩
        · rw [hf1, map_price_prodRow] at hnum2; exact hnum2
        · have hL : L = dropna f2 := ((Except.ok.injEq _ _).mp h).symm
          rw [hL, hf2, hf1, List.map_map]
          rfl

theorem main_ok {input : List (List String)} {out : List OutRec}
    (h : main input = Except.ok out) :
    ∃ L, cleanedRows input = Except.ok L ∧ out = (dedup L).map toOut := by
  unfold main at h
  cases hc : cleanedRows input with
  | error e => rw [hc] at h; exact absurd h (by simp)
  | ok L =>
    rw [hc] at h
    exact ⟨L, rfl, ((Except.ok.injEq _ _).mp h).symm⟩

end Sales

namespace Sales

theorem dedupAux_sublist (seen : List (Val × Val)) (l : List Row) :
    List.Sublist (dedupAux seen l) l := by
  induction l generalizing seen with
  | nil => simp [dedupAux]
  | cons a t ih =>
    rw [dedupAux]
    by_cases h : dkey a ∈ seen
    · rw [if_pos h]; exact List.Sublist.cons a (ih seen)
    · rw [if_neg h]; exact List.Sublist.cons₂ a (ih (dkey a :: seen))

theorem dedup_sublist (l : List Row) : List.Sublist (dedup l) l :=
  dedupAux_sublist [] l

theorem mem_dropna {r : Row} {l : List Row} (h : r ∈ dropna l) :
    hasNa r = false ∧ r ∈ l := by
  unfold dropna at h
  rw [List.mem_filter] at h
  exact ⟨by simpa using h.2, h.1⟩

theorem dedupAux_not_mem_seen {l : List Row} :
    ∀ {seen : List (Val × Val)} {r : Row}, r ∈ dedupAux seen l → dkey r ∉ seen := by
  induction l with
  | nil => intro seen r h; simp [dedupAux] at h
  | cons a t ih =>
    intro seen r h
    rw [dedupAux] at h
    by_cases ha : dkey a ∈ seen
    · rw [if_pos ha] at h; exact ih h
    · rw [if_neg ha] at h
      rcases List.mem_cons.mp h with rfl | h2
      · exact ha
      · intro hs
        exact ih h2 (List.mem_cons_of_mem _ hs)

theorem dedupAux_pairwise (l : List Row) :
    ∀ seen : List (Val × Val), (dedupAux seen l).Pairwise (fun a b => dkey a ≠ dkey b) := by
  induction l with
  | nil => intro seen; simp [dedupAux]
  | cons a t ih =>
    intro seen
    rw [dedupAux]
    by_cases ha : dkey a ∈ seen
    · rw [if_pos ha]; exact ih seen
    · rw [if_neg ha]
      refine List.Pairwise.cons ?_ (ih (dkey a :: seen))
      intro b hb
      have := dedupAux_not_mem_seen hb
      intro he
      exact this (by rw [← he]; exact List.mem_cons_self _ _)

theorem dedupAux_congr {l : List Row} :
    ∀ {s1 s2 : List (Val × Val)}, (∀ k, k ∈ s1 ↔ k ∈ s2) → dedupAux s1 l = dedupAux s2 l := by
  induction l with
  | nil => intro s1 s2 _; rfl
  | cons a t ih =>
    intro s1 s2 hs
    rw [dedupAux, dedupAux]
    by_cases h1 : dkey a ∈ s1
    · rw [if_pos h1, if_pos ((hs _).mp h1)]
      exact ih hs
    · rw [if_neg h1, if_neg (fun h2 => h1 ((hs _).mpr h2))]
      refine congrArg _ (ih ?_)
      intro k
      simp only [List.mem_cons]
      exact or_congr Iff.rfl (hs k)

theorem dupAux_congr {l : List Row} :
    ∀ {s1 s2 : List (Val × Val)}, (∀ k, k ∈ s1 ↔ k ∈ s2) → dupAux s1 l = dupAux s2 l := by
  induction l with
  | nil => intro s1 s2 _; rfl
  | cons a t ih =>
    intro s1 s2 hs
    rw [dupAux, dupAux]
    have htail : dupAux (dkey a :: s1) t = dupAux (dkey a :: s2) t := by
      refine ih ?_
      intro k
      simp only [List.mem_cons]
      exact or_congr Iff.rfl (hs k)
    by_cases h1 : dkey a ∈ s1
    · rw [if_pos h1, if_pos ((hs _).mp h1), htail]
    · rw [if_neg h1, if_neg (fun h2 => h1 ((hs _).mpr h2)), htail]

theorem dupAux_add_length (l : List Row) :
    ∀ seen : List (Val × Val), dupAux seen l + (dedupAux seen l).length = l.length := by
  induction l with
  | nil => intro seen; rfl
  | cons a t ih =>
    intro seen
    rw [dupAux, dedupAux]
    by_cases h : dkey a ∈ seen
    · rw [if_pos h, if_pos h]
      have hc : dupAux (dkey a :: seen) t = dupAux seen t := by
        refine dupAux_congr ?_
        intro k
        simp only [List.mem_cons]
        constructor
        · rintro (rfl | hk)
          · exact h
          · exact hk
        · exact Or.inr
      rw [hc]
      have := ih seen
      simp only [List.length_cons]
      omega
    · rw [if_neg h, if_neg h]
      have := ih (dkey a :: seen)
      simp only [List.length_cons]
      omega

theorem dedup_length_add_dupCount (l : List Row) :
    dupCount l + (dedup l).length = l.length :=
  dupAux_add_length l []

theorem dedupAux_filter_of_mem {l : List Row} :
    ∀ {seen : List (Val × Val)} {k : Val × Val}, k ∈ seen →
      (dedupAux seen l).filter (fun r => decide (dkey r = k)) = [] := by
  induction l with
  | nil => intro seen k _; rfl
  | cons a t ih =>
    intro seen k hk
    rw [dedupAux]
    by_cases ha : dkey a ∈ seen
    · rw [if_pos ha]; exact ih hk
    · rw [if_neg ha]
      have hne : dkey a ≠ k := by
        intro he; rw [he] at ha; exact ha hk
      rw [List.filter_cons]
      simp only [decide_eq_true_eq, hne, if_false]
      exact ih (List.mem_cons_of_mem _ hk)

theorem dedupAux_filter_of_not_mem {l : List Row} :
    ∀ {seen : List (Val × Val)} {k : Val × Val}, k ∉ seen →
      (dedupAux seen l).filter (fun r => decide (dkey r = k)) =
        (l.filter (fun r => decide (dkey r = k))).take 1 := by
  induction l with
  | nil => intro seen k _; rfl
  | cons a t ih =>
    intro seen k hk
    rw [dedupAux]
    by_cases ha : dkey a ∈ seen
    · rw [if_pos ha]
      have hne : dkey a ≠ k := by
        intro he; rw [he] at ha; exact absurd ha hk
      rw [List.filter_cons]
      simp only [decide_eq_true_eq, hne, if_false]
      exact ih hk
    · rw [if_neg ha]
      by_cases he : dkey a = k
      · rw [List.filter_cons, List.filter_cons]
        simp only [decide_eq_true_eq, he, if_true]
        rw [dedupAux_filter_of_mem (by rw [← he]; exact List.mem_cons_self _ _)]
        simp
      · rw [List.filter_cons, List.filter_cons]
        simp only [decide_eq_true_eq, he, if_false]
        refine ih ?_
        intro h2
        rcases List.mem_cons.mp h2 with h3 | h3
        · exact he h3.symm
        · exact hk h3

theorem dedup_filter_key (l : List Row) (k : Val × Val) :
    (dedup l).filter (fun r => decide (dkey r = k)) =
      (l.filter (fun r => decide (dkey r = k))).take 1 :=
  dedupAux_filter_of_not_mem (by simp)

theorem length_filter_partition (l : List Row) (p : Row → Bool) :
    (l.filter p).length + (l.filter (fun r => !p r)).length = l.length := by
  induction l with
  | nil => rfl
  | cons a t ih =>
    by_cases h : p a = true
    · simp [List.filter_cons, h]
      omega
    · have h2 : p a = false := by simpa using h
      simp [List.filter_cons, h2]
      omega

end Sales

namespace Sales

theorem head?_dropWhile {p : Char → Bool} :
    ∀ {l : List Char} {c : Char}, (l.dropWhile p).head? = some c → p c = false := by
  intro l
  induction l with
  | nil => intro c h; simp at h
  | cons a t ih =>
    intro c h
    rw [List.dropWhile_cons] at h
    by_cases hp : p a = true
    · rw [if_pos hp] at h; exact ih h
    · rw [if_neg hp] at h
      have : a = c := by simpa using h
      rw [← this]
      simpa using hp

theorem mem_of_mem_dropWhile {p : Char → Bool} :
    ∀ {l : List Char} {x : Char}, x ∈ l.dropWhile p → x ∈ l := by
  intro l
  induction l with
  | nil => intro x h; simp at h
  | cons a t ih =>
    intro x h
    rw [List.dropWhile_cons] at h
    by_cases hp : p a = true
    · rw [if_pos hp] at h; exact List.mem_cons_of_mem _ (ih h)
    · rw [if_neg hp] at h; exact h

theorem getLast?_dropWhile_ne_nil {p : Char → Bool} :
    ∀ {l : List Char}, l.dropWhile p ≠ [] → (l.dropWhile p).getLast? = l.getLast? := by
  intro l
  induction l with
  | nil => intro h; simp at h
  | cons a t ih =>
    intro h
    rw [List.dropWhile_cons] at h ⊢
    by_cases hp : p a = true
    · rw [if_pos hp] at h ⊢
      have ht : t ≠ [] := by
        intro he
        rw [he] at h
        simp [List.dropWhile] at h
      rw [ih h]
      cases t with
      | nil => exact absurd rfl ht
      | cons b t2 => rw [List.getLast?_cons_cons]
    · rw [if_neg hp]

theorem mem_stripList {l : List Char} {x : Char} (h : x ∈ stripList l) : x ∈ l := by
  unfold stripList at h
  rw [List.mem_reverse] at h
  have h2 := mem_of_mem_dropWhile h
  rw [List.mem_reverse] at h2
  exact mem_of_mem_dropWhile h2

theorem stripList_getLast {l : List Char} {c : Char}
    (h : (stripList l).getLast? = some c) : isSpace c = false := by
  unfold stripList at h
  rw [List.getLast?_reverse] at h
  exact head?_dropWhile h

theorem stripList_head {l : List Char} {c : Char}
    (h : (stripList l).head? = some c) : isSpace c = false := by
  unfold stripList at h
  rw [List.head?_reverse] at h
  have hne : (l.dropWhile isSpace).reverse.dropWhile isSpace ≠ [] := by
    intro he
    rw [he] at h
    simp at h
  rw [getLast?_dropWhile_ne_nil hne, List.getLast?_reverse] at h
  exact head?_dropWhile h

theorem mem_pyStrip {s : String} {x : Char} (h : x ∈ (pyStrip s).data) : x ∈ s.data :=
  mem_stripList h

theorem not_mem_removeAll (c : Char) (s : String) : c ∉ (removeAll c s).data := by
  intro h
  have := List.of_mem_filter h
  simp at this

end Sales

namespace Sales

theorem priceStep_error_shape {r : Row} {e : Err} (h : priceStep r = Except.error e) :
    ∃ t, e = Err.valueError t := by
  cases r with
  | mk i p pr c =>
    cases pr with
    | str s =>
      simp only [priceStep] at h
      cases hp : parseFloat? (priceClean s) with
      | some q => rw [hp] at h; simp at h
      | none =>
        rw [hp] at h
        exact ⟨priceClean s, ((Except.error.injEq _ _).mp h).symm⟩
    | na => simp only [priceStep] at h; simp at h
    | num q => simp only [priceStep] at h; simp at h

theorem mapExcept_error_of_mem :
    ∀ {l : List Row} {r : Row}, r ∈ l → ∀ {e : Err}, priceStep r = Except.error e →
      ∃ t, mapExcept priceStep l = Except.error (Err.valueError t) := by
  intro l
  induction l with
  | nil => intro r h; simp at h
  | cons a t ih =>
    intro r hr e he
    rw [mapExcept]
    cases ha : priceStep a with
    | error e0 =>
      obtain ⟨t0, rfl⟩ := priceStep_error_shape ha
      exact ⟨t0, rfl⟩
    | ok b =>
      rcases List.mem_cons.mp hr with rfl | hrt
      · rw [ha] at he; simp at he
      · obtain ⟨t1, ht1⟩ := ih hrt he
        refine ⟨t1, ?_⟩
        dsimp only
        rw [ht1]

theorem isNumericVals_false_of_str {col : List Val} {s : String} (h : Val.str s ∈ col) :
    isNumericVals col = false := by
  unfold isNumericVals
  have hall : col.all (fun v =>
      match v with
      | Val.str _ => false
      | _ => true) = false := by
    cases hall : col.all (fun v =>
        match v with
        | Val.str _ => false
        | _ => true) with
    | false => rfl
    | true =>
      have := List.all_eq_true.mp hall _ h
      simp at this
  rw [hall, Bool.and_false]

/-- C1, counterexample: the spec says a row whose price does not parse is
converted to a missing value and silently dropped, but on the row
`1, Widget, $abc, US` the script raises `ValueError` in the Field
Normalizer (pandas `astype(float)` has no coerce-to-missing fallback), so
the run aborts instead of producing an output without the row. -/
theorem claim1_counterexample :
    main [["1", "Widget", "$abc", "US"]] = Except.error (Err.valueError "abc") := rfl

/-- C1 (amended): a loaded row whose price field is present (a text cell)
but, after removal of the dollar signs and surrounding whitespace, does
not parse as a floating-point number makes the Field Normalizer raise a
`ValueError`: the whole run aborts with no output, and the row is neither
counted as missing nor dropped by the Missing-Value Filter. -/
theorem claim1_amended :
    ∀ (input : List (List String)) (frame f1 : List Row),
      loadFrame input = Except.ok frame →
      normalizeProduct frame = Except.ok f1 →
      (∃ r ∈ f1, ∃ s, r.price = Val.str s ∧ parseFloat? (priceClean s) = none) →
      ∃ t, main input = Except.error (Err.valueError t) := by
  intro input frame f1 hl hp hbad
  obtain ⟨r, hr, s, hs, hparse⟩ := hbad
  have hnum : isNumericVals (f1.map Row.price) = false := by
    refine isNumericVals_false_of_str (s := s) ?_
    rw [← hs]
    exact List.mem_map_of_mem Row.price hr
  have hstep : priceStep r = Except.error (Err.valueError (priceClean s)) := by
    cases r with
    | mk i p pr c =>
      simp only at hs
      subst hs
      simp only [priceStep, hparse]
  obtain ⟨t, ht⟩ := mapExcept_error_of_mem hr hstep
  have hnp : normalizePrice f1 = Except.error (Err.valueError t) := by
    unfold normalizePrice
    rw [if_neg (by simp [hnum])]
    exact ht
  refine ⟨t, ?_⟩
  unfold main cleanedRows
  rw [hl]
  dsimp only
  rw [hp]
  dsimp only
  rw [hnp]

/-- C1, witness for the amended theorem at a concrete one-row input whose
price cell is `$abc`. -/
theorem claim1_witness :
    ∃ t, main [["1", "w idget", "$abc", "US"]] = Except.error (Err.valueError t) :=
  claim1_amended [["1", "w idget", "$abc", "US"]]
    [⟨Val.num ⟨1, 1⟩, Val.str "w idget", Val.str "$abc", Val.str "US"⟩]
    [⟨Val.num ⟨1, 1⟩, Val.str "w idget", Val.str "$abc", Val.str "US"⟩]
    rfl rfl
    ⟨⟨Val.num ⟨1, 1⟩, Val.str "w idget", Val.str "$abc", Val.str "US"⟩,
      List.mem_singleton.mpr rfl, "$abc", rfl, rfl⟩

end Sales

namespace Sales

/-- C2, counterexample: the spec says a row without exactly 4 fields makes
the Loader fail with a `ParseError`, but the 3-field row
`1, Widget, $2.50` loads without error: pandas pads the missing trailing
field with a missing-value marker instead of aborting. -/
theorem claim2_counterexample :
    loadFrame [["1", "Widget", "$2.50"]] =
      Except.ok [⟨Val.num ⟨1, 1⟩, Val.str "Widget", Val.str "$2.50", Val.na⟩] := rfl

/-- C2 (amended): the Loader fails if and only if some row has more fields
than the table width established by the first row (that row's field count,
at least the 4 supplied column names), and every Loader failure is a
`ParseError`; in particular a row with fewer than 4 fields does not abort
the run — its absent fields are loaded as missing-value markers. -/
theorem claim2_amended :
    ∀ input : List (List String),
      ((∃ e, loadFrame input = Except.error e) ↔
        ∃ r ∈ input, expectedWidth input < r.length)
      ∧ ∀ e, loadFrame input = Except.error e → ∃ w s, e = Err.parseError w s := by
  intro input
  unfold loadFrame
  cases hf : input.find? (fun r => decide (expectedWidth input < r.length)) with
  | none =>
    dsimp only
    constructor
    · constructor
      · rintro ⟨e, he⟩
        simp at he
      · rintro ⟨r, hr, hlen⟩
        have hnot := List.find?_eq_none.mp hf r hr
        simp at hnot
        omega
    · intro e he
      simp at he
  | some r0 =>
    dsimp only
    constructor
    · constructor
      · intro _
        refine ⟨r0, List.mem_of_find?_eq_some hf, ?_⟩
        have := List.find?_some hf
        simpa using this
      · intro _
        exact ⟨_, rfl⟩
    · intro e he
      have h2 : Err.parseError (expectedWidth input) r0.length = e :=
        (Except.error.injEq _ _).mp he
      exact ⟨_, _, h2.symm⟩

/-- C2, witness for the amended theorem: an input whose second row is
wider than the first does make the Loader fail. -/
theorem claim2_witness :
    ∃ e, loadFrame [["1", "w", "2", "US"], ["2", "w", "2", "US", "x"]] = Except.error e :=
  (claim2_amended [["1", "w", "2", "US"], ["2", "w", "2", "US", "x"]]).1.mpr
    ⟨["2", "w", "2", "US", "x"], by simp, by decide⟩

/-- C3: on an input with zero data rows the program succeeds: the run
raises nothing (the process exits 0) and the final record sequence is
empty, so the output file holds the empty JSON array. -/
theorem claim3_spec : main [] = Except.ok [] := rfl

end Sales

namespace Sales

theorem hasNa_of_price_na {r : Row} (h : r.price = Val.na) : hasNa r = true := by
  simp [hasNa, isNa, h]

theorem mem_out_trace {input : List (List String)} {out : List OutRec}
    (h : main input = Except.ok out) {rec : OutRec} (hrec : rec ∈ out) :
    ∃ frame r0, loadFrame input = Except.ok frame ∧ r0 ∈ frame ∧
      rec = toOut (normRow r0) ∧ hasNa (normRow r0) = false := by
  obtain ⟨L, hc, hout⟩ := main_ok h
  obtain ⟨frame, hl, h1, h2, hL⟩ := cleaned_ok hc
  subst hout
  rw [List.mem_map] at hrec
  obtain ⟨r, hr, rfl⟩ := hrec
  have hrL : r ∈ L := (dedup_sublist L).subset hr
  rw [hL] at hrL
  obtain ⟨hna, hrm⟩ := mem_dropna hrL
  rw [List.mem_map] at hrm
  obtain ⟨r0, hr0, rfl⟩ := hrm
  exact ⟨frame, r0, hl, hr0, rfl, hna⟩

theorem normRow_price_cases (r : Row) :
    (normRow r).price = Val.na ∨ ∃ q, (normRow r).price = Val.num q := by
  unfold normRow
  cases hy : prodRow r with
  | mk i p pr c =>
    cases pr with
    | na => left; rfl
    | num q => right; exact ⟨q, rfl⟩
    | str s =>
      cases hp : parseFloat? (priceClean s) with
      | some q => right; exact ⟨q, by simp [priceRowOk, hp]⟩
      | none => left; simp [priceRowOk, hp]

/-- C4: for every record retained in the output, the derived
target-currency price equals `round(price_source * 83, 2)` exactly, the
rounding being round-half(-to-even, the Python and NumPy convention) at 2
decimal places; the conversion is total on numeric prices, and every
retained record does carry a numeric source price. -/
theorem claim4_spec :
    ∀ (input : List (List String)) (out : List OutRec),
      main input = Except.ok out →
      ∀ rec ∈ out, ∃ q, rec.price_usd = Val.num q ∧
        rec.price_inr = Val.num (round2 (qmul q USD_TO_INR)) := by
  intro input out h rec hrec
  obtain ⟨frame, r0, hl, hr0, rfl, hna⟩ := mem_out_trace h hrec
  rcases normRow_price_cases r0 with hp | ⟨q, hp⟩
  · rw [hasNa_of_price_na hp] at hna
    cases hna
  · exact ⟨q, by simp [toOut, hp], by simp [toOut, hp]⟩

/-- C4, witness at the one-row input `1, w, $10.00, US`: the output price
pair is `10` and `830`. -/
theorem claim4_witness :
    ∃ q, (OutRec.mk (Val.num ⟨1, 1⟩) (Val.str "w") (Val.num ⟨10, 1⟩)
        (Val.num ⟨830, 1⟩) (Val.str "US")).price_usd = Val.num q ∧
      (OutRec.mk (Val.num ⟨1, 1⟩) (Val.str "w") (Val.num ⟨10, 1⟩)
        (Val.num ⟨830, 1⟩) (Val.str "US")).price_inr =
        Val.num (round2 (qmul q USD_TO_INR)) :=
  claim4_spec [["1", "w", "$10.00", "US"]]
    [⟨Val.num ⟨1, 1⟩, Val.str "w", Val.num ⟨10, 1⟩, Val.num ⟨830, 1⟩, Val.str "US"⟩]
    rfl _ (List.mem_singleton.mpr rfl)

/-- C6: the product field of every output record contains no double-quote
character and has no leading or trailing whitespace. -/
theorem claim6_spec :
    ∀ (input : List (List String)) (out : List OutRec),
      main input = Except.ok out →
      ∀ rec ∈ out, ∀ s, rec.product = Val.str s →
        quoteChar ∉ s.data
        ∧ (∀ c, s.data.head? = some c → isSpace c = false)
        ∧ (∀ c, s.data.getLast? = some c → isSpace c = false) := by
  intro input out h rec hrec s hprod
  obtain ⟨frame, r0, hl, hr0, rfl, hna⟩ := mem_out_trace h hrec
  have hprod2 : (prodRow r0).product = Val.str s := by
    rw [← normRow_product]
    exact hprod
  cases r0 with
  | mk i p pr c =>
    cases p with
    | na => simp [prodRow] at hprod2
    | num q => simp [prodRow] at hprod2
    | str s0 =>
      simp only [prodRow, Val.str.injEq] at hprod2
      subst hprod2
      refine ⟨?_, ?_, ?_⟩
      · intro hmem
        exact not_mem_removeAll quoteChar s0 (mem_pyStrip hmem)
      · intro c2 hc2
        exact stripList_head hc2
      · intro c2 hc2
        exact stripList_getLast hc2

/-- C6, witness at the one-row input `1, ␣w␣, $2, US` (product padded with
spaces): the output product `w` has no quotes and no surrounding blanks. -/
theorem claim6_witness :
    quoteChar ∉ ("w" : String).data :=
  (claim6_spec [["1", " w ", "$2", "US"]]
    [⟨Val.num ⟨1, 1⟩, Val.str "w", Val.num ⟨2, 1⟩, Val.num ⟨166, 1⟩, Val.str "US"⟩]
    rfl _ (List.mem_singleton.mpr rfl) "w" rfl).1

end Sales

namespace Sales

/-- C7: the output is an order-preserving selection from the loaded rows —
`dropna` and `drop_duplicates` are stable filters, so any two records both
retained in the output appear in the same relative order as in the input:
the output is a sublist of the per-row-transformed loaded frame. -/
theorem claim7_spec :
    ∀ (input : List (List String)) (frame : List Row) (out : List OutRec),
      loadFrame input = Except.ok frame → main input = Except.ok out →
      List.Sublist out (frame.map (fun r => toOut (normRow r))) := by
  intro input frame out hl hm
  obtain ⟨L, hc, hout⟩ := main_ok hm
  obtain ⟨frame2, hl2, h1, h2, hL⟩ := cleaned_ok hc
  rw [hl] at hl2
  obtain rfl : frame = frame2 := (Except.ok.injEq _ _).mp hl2
  have hsub1 : List.Sublist (dropna (frame.map normRow)) (frame.map normRow) :=
    List.filter_sublist _
  have hsub : List.Sublist (dedup L) (frame.map normRow) := by
    rw [hL]
    exact (dedup_sublist _).trans hsub1
  have hmap := hsub.map toOut
  rw [List.map_map] at hmap
  rw [hout]
  exact hmap

/-- C7, witness: on a two-row input whose second row is a duplicate, the
output is a sublist of the transformed loaded frame. -/
theorem claim7_witness :
    List.Sublist
      [⟨Val.num ⟨1, 1⟩, Val.str "w", Val.num ⟨2, 1⟩, Val.num ⟨166, 1⟩, Val.str "US"⟩]
      (List.map (fun r => toOut (normRow r))
        [⟨Val.num ⟨1, 1⟩, Val.str "w", Val.str "$2", Val.str "US"⟩,
         ⟨Val.num ⟨2, 1⟩, Val.str "w", Val.str "$2", Val.str "IN"⟩]) :=
  claim7_spec [["1", "w", "$2", "US"], ["2", "w", "$2", "IN"]]
    [⟨Val.num ⟨1, 1⟩, Val.str "w", Val.str "$2", Val.str "US"⟩,
     ⟨Val.num ⟨2, 1⟩, Val.str "w", Val.str "$2", Val.str "IN"⟩]
    [⟨Val.num ⟨1, 1⟩, Val.str "w", Val.num ⟨2, 1⟩, Val.num ⟨166, 1⟩, Val.str "US"⟩]
    rfl rfl

/-- C9: every record retained in the output carries its `id` and `country`
verbatim from the loaded row it descends from — no stage after loading
modifies either field. -/
theorem claim9_spec :
    ∀ (input : List (List String)) (out : List OutRec),
      main input = Except.ok out →
      ∀ rec ∈ out, ∃ frame r, loadFrame input = Except.ok frame ∧ r ∈ frame ∧
        rec.id = r.id ∧ rec.country = r.country := by
  intro input out h rec hrec
  obtain ⟨frame, r0, hl, hr0, rfl, hna⟩ := mem_out_trace h hrec
  refine ⟨frame, r0, hl, hr0, ?_, ?_⟩
  · show (toOut (normRow r0)).id = r0.id
    rw [show (toOut (normRow r0)).id = (normRow r0).id from rfl, normRow_id]
  · show (toOut (normRow r0)).country = r0.country
    rw [show (toOut (normRow r0)).country = (normRow r0).country from rfl, normRow_country]

/-- C9, witness at the one-row input `7, w, $2, DE`. -/
theorem claim9_witness :
    ∃ frame r, loadFrame [["7", "w", "$2", "DE"]] = Except.ok frame ∧ r ∈ frame ∧
      (OutRec.mk (Val.num ⟨7, 1⟩) (Val.str "w") (Val.num ⟨2, 1⟩)
        (Val.num ⟨166, 1⟩) (Val.str "DE")).id = r.id ∧
      (OutRec.mk (Val.num ⟨7, 1⟩) (Val.str "w") (Val.num ⟨2, 1⟩)
        (Val.num ⟨166, 1⟩) (Val.str "DE")).country = r.country :=
  claim9_spec [["7", "w", "$2", "DE"]]
    [⟨Val.num ⟨7, 1⟩, Val.str "w", Val.num ⟨2, 1⟩, Val.num ⟨166, 1⟩, Val.str "DE"⟩]
    rfl _ (List.mem_singleton.mpr rfl)

end Sales

namespace Sales

/-- C8: the output record count equals the loaded row count minus the rows
dropped by the Missing-Value Filter minus the rows dropped by the
Deduplicator, and the reported duplicate count — `duplicated().sum()`,
computed before removal — equals the number of rows `drop_duplicates`
removes. -/
theorem claim8_spec :
    ∀ (input : List (List String)) (frame : List Row) (out : List OutRec),
      loadFrame input = Except.ok frame → main input = Except.ok out →
      out.length + ((frame.map normRow).filter (fun r => hasNa r)).length
          + dupCount (dropna (frame.map normRow)) = frame.length
      ∧ dupCount (dropna (frame.map normRow))
          + (dedup (dropna (frame.map normRow))).length
          = (dropna (frame.map normRow)).length := by
  intro input frame out hl hm
  obtain ⟨L, hc, hout⟩ := main_ok hm
  obtain ⟨frame2, hl2, h1, h2, hL⟩ := cleaned_ok hc
  rw [hl] at hl2
  obtain rfl : frame = frame2 := (Except.ok.injEq _ _).mp hl2
  have hlen_out : out.length = (dedup (dropna (frame.map normRow))).length := by
    rw [hout, hL, List.length_map]
  have hdd := dedup_length_add_dupCount (dropna (frame.map normRow))
  have hpart := length_filter_partition (frame.map normRow) (fun r => hasNa r)
  have hmap : (frame.map normRow).length = frame.length := List.length_map _ _
  have hdropna : (dropna (frame.map normRow)).length =
      ((frame.map normRow).filter (fun r => !hasNa r)).length := rfl
  constructor
  · omega
  · exact hdd

/-- C8, witness on a three-row input with one missing value and one
duplicate: 1 output row, 1 missing-dropped row, 1 duplicate-dropped row. -/
theorem claim8_witness :
    (1 : ℕ) + ((List.map normRow
        [⟨Val.num ⟨1, 1⟩, Val.str "w", Val.str "$2", Val.str "US"⟩,
         ⟨Val.num ⟨2, 1⟩, Val.str "w", Val.str "$2", Val.str "IN"⟩,
         ⟨Val.num ⟨3, 1⟩, Val.str "v", Val.na, Val.str "US"⟩]).filter
        (fun r => hasNa r)).length
      + dupCount (dropna (List.map normRow
        [⟨Val.num ⟨1, 1⟩, Val.str "w", Val.str "$2", Val.str "US"⟩,
         ⟨Val.num ⟨2, 1⟩, Val.str "w", Val.str "$2", Val.str "IN"⟩,
         ⟨Val.num ⟨3, 1⟩, Val.str "v", Val.na, Val.str "US"⟩])) = 3 :=
  (claim8_spec [["1", "w", "$2", "US"], ["2", "w", "$2", "IN"], ["3", "v", "", "US"]]
    [⟨Val.num ⟨1, 1⟩, Val.str "w", Val.str "$2", Val.str "US"⟩,
     ⟨Val.num ⟨2, 1⟩, Val.str "w", Val.str "$2", Val.str "IN"⟩,
     ⟨Val.num ⟨3, 1⟩, Val.str "v", Val.na, Val.str "US"⟩]
    [⟨Val.num ⟨1, 1⟩, Val.str "w", Val.num ⟨2, 1⟩, Val.num ⟨166, 1⟩, Val.str "US"⟩]
    rfl rfl).1

end Sales

namespace Sales

/-- C5: after deduplication no two retained records share a
(product, price_source) key — equality on the price being exact equality
of the parsed value, with no tolerance — and for each key the record kept
is the first in original order: the retained records with a given key are
exactly the first occurrence of that key. -/
theorem claim5_spec :
    ∀ (input : List (List String)) (L : List Row) (out : List OutRec),
      cleanedRows input = Except.ok L → main input = Except.ok out →
      out = (dedup L).map toOut
      ∧ List.Pairwise (fun a b => (a.product, a.price_usd) ≠ (b.product, b.price_usd)) out
      ∧ ∀ k, (dedup L).filter (fun r => decide (dkey r = k)) =
          (L.filter (fun r => decide (dkey r = k))).take 1 := by
  intro input L out hc hm
  obtain ⟨L2, hc2, hout⟩ := main_ok hm
  rw [hc] at hc2
  obtain rfl : L = L2 := (Except.ok.injEq _ _).mp hc2
  refine ⟨hout, ?_, fun k => dedup_filter_key L k⟩
  rw [hout, List.pairwise_map]
  refine List.Pairwise.imp ?_ (dedupAux_pairwise L [])
  intro a b hab he
  apply hab
  have h1 : a.product = b.product := congrArg Prod.fst he
  have h2 : a.price = b.price := congrArg Prod.snd he
  unfold dkey
  rw [h1, h2]

/-- C5, witness: with two rows sharing the key (`w`, 2), the single
retained output record trivially has pairwise-distinct keys. -/
theorem claim5_witness :
    List.Pairwise (fun a b => (a.product, a.price_usd) ≠ (b.product, b.price_usd))
      [OutRec.mk (Val.num ⟨1, 1⟩) (Val.str "w") (Val.num ⟨2, 1⟩)
        (Val.num ⟨166, 1⟩) (Val.str "US")] :=
  (claim5_spec [["1", "w", "$2", "US"], ["2", "w", "2.0", "IN"]]
    [⟨Val.num ⟨1, 1⟩, Val.str "w", Val.num ⟨2, 1⟩, Val.str "US"⟩,
     ⟨Val.num ⟨2, 1⟩, Val.str "w", Val.num ⟨2, 1⟩, Val.str "IN"⟩]
    [⟨Val.num ⟨1, 1⟩, Val.str "w", Val.num ⟨2, 1⟩, Val.num ⟨166, 1⟩, Val.str "US"⟩]
    rfl rfl).2.1

/-- C10: if the loaded `product` column or the loaded `price` column came
out numeric (every value already numeric — no dollar prefix, no
non-numeric text), the Field Normalizer's `.str` operations raise an
`AttributeError` instead of accepting the already-clean input; the
normalizer succeeds only when both columns load as text. -/
theorem claim10_spec :
    ∀ (input : List (List String)) (frame : List Row),
      loadFrame input = Except.ok frame →
      ((isNumericVals (frame.map Row.product) = true
          ∨ isNumericVals (frame.map Row.price) = true) →
        ∃ c, main input = Except.error (Err.attributeError c))
      ∧ (∀ out, main input = Except.ok out →
          isNumericVals (frame.map Row.product) = false
          ∧ isNumericVals (frame.map Row.price) = false) := by
  intro input frame hl
  constructor
  · intro hd
    by_cases hp : isNumericVals (frame.map Row.product) = true
    · refine ⟨"product", ?_⟩
      have hnp : normalizeProduct frame = Except.error (Err.attributeError "product") := by
        unfold normalizeProduct
        rw [if_pos hp]
      unfold main cleanedRows
      rw [hl]
      dsimp only
      rw [hnp]
    · have hp2 : isNumericVals (frame.map Row.product) = false := by simpa using hp
      have hq : isNumericVals (frame.map Row.price) = true := by
        rcases hd with h | h
        · exact absurd h hp
        · exact h
      refine ⟨"price", ?_⟩
      have h1 : normalizeProduct frame = Except.ok (frame.map prodRow) := by
        unfold normalizeProduct
        rw [if_neg (by simp [hp2])]
      have h2 : normalizePrice (frame.map prodRow) =
          Except.error (Err.attributeError "price") := by
        unfold normalizePrice
        rw [map_price_prodRow, if_pos hq]
      unfold main cleanedRows
      rw [hl]
      dsimp only
      rw [h1]
      dsimp only
      rw [h2]
  · intro out hout
    obtain ⟨L, hc, -⟩ := main_ok hout
    obtain ⟨frame2, hl2, hnp, hnq, -⟩ := cleaned_ok hc
    rw [hl] at hl2
    obtain rfl : frame = frame2 := (Except.ok.injEq _ _).mp hl2
    exact ⟨hnp, hnq⟩

/-- C10, witness: on the row `1, 99, abc, US` the `product` column loads
numeric, and the run fails with an `AttributeError`. -/
theorem claim10_witness :
    ∃ c, main [["1", "99", "abc", "US"]] = Except.error (Err.attributeError c) :=
  (claim10_spec [["1", "99", "abc", "US"]]
    [⟨Val.num ⟨1, 1⟩, Val.num ⟨99, 1⟩, Val.str "abc", Val.str "US"⟩] rfl).1
    (Or.inl rfl)

end Sales
